import Mathlib

/-!
Verification of the PC<->MCU serial protocol codec (frame layer and TLV data
layer) from `src/communicate/protocol/protocol_c/`.

Bytes are modelled as `Nat` values (with `< 256` bounds carried as hypotheses
where a claim needs byte semantics); buffers are modelled as `List Nat`
holding the bytes of the pointed-to memory region, with writes expressed as
region splices; a `NULL` pointer argument is modelled as `none`; functions
returning a C status code return an `Int` status here.
-/

set_option maxHeartbeats 1000000

/-! ### Frame layer constants and error codes (frame.c) -/

def FRAME_HEAD : Nat := 0xAA
def FRAME_TAIL : Nat := 0x55
def MAX_DATA_LEN : Nat := 0xFF - 3

def PCMCU_OK : Int := 0
def PCMCU_EINVAL : Int := -1
def PCMCU_EDATA_TOO_LONG : Int := -2
def PCMCU_EBUFSZ : Int := -3
def PCMCU_EFRAME_TOO_SHORT : Int := -4
def PCMCU_EHEAD_TAIL : Int := -5
def PCMCU_ELEN_INVALID : Int := -6
def PCMCU_ELEN_MISMATCH : Int := -7
def PCMCU_ECHECKSUM : Int := -8

/-- Source `sum_bytes(data, len)` from frame.c: sums the first `len` bytes when the
data pointer is non-null, else 0 (the loop does not run for `NULL` or `len=0`). -/
def sum_bytes (data : Option (List Nat)) (len : Nat) : Nat :=
  match data with
  | none => 0
  | some d => (d.take len).foldl (· + ·) 0

/-- Source `checksum` from frame.c: `CHK = (LEN + VER + SEQ + sum(DATA)) & 0xFF`. -/
def checksum (len_byte ver seq : Nat) (data : Option (List Nat)) (data_len : Nat) : Nat :=
  (len_byte + ver + seq + sum_bytes data data_len) % 256

/-- Source `frame_size_for` from frame.c: total frame size for a given payload size. -/
def frame_size_for (data_len : Nat) : Nat := data_len + 6

/-- Source `pcmcu_build_frame` from frame.c.  The output buffer (assumed non-NULL,
the `!out_buf` EINVAL path is for the NULL pointer we do not model) is
represented by the list of bytes actually written; the second component is
`*out_frame_len`.  `data = none` models a NULL data pointer. -/
def pcmcu_build_frame (seq : Nat) (data : Option (List Nat)) (data_len : Nat)
    (ver : Nat) (out_buf_size : Nat) : Except Int (List Nat × Nat) :=
  if data_len > MAX_DATA_LEN then .error PCMCU_EDATA_TOO_LONG
  else
    let length := (3 + data_len % 256) % 256
    let total := frame_size_for data_len
    if out_buf_size < total then .error PCMCU_EBUFSZ
    else
      let chk := checksum length ver seq data data_len
      let payload : List Nat :=
        match data with
        | some d => if data_len ≠ 0 then d.take data_len else []
        | none => []
      let bytes := FRAME_HEAD :: length :: ver :: seq :: chk :: (payload ++ [FRAME_TAIL])
      .ok (bytes, bytes.length)

/-- The out-parameter cells of `pcmcu_parse_frame_data`; a field is `some v`
exactly when the function stored `v` through the corresponding pointer. -/
structure ParseOuts where
  out_ver : Option Nat
  out_seq : Option Nat
  out_data_len : Option Nat
  out_data : Option (List Nat)
deriving Repr, DecidableEq

def noOuts : ParseOuts := ⟨none, none, none, none⟩

/-- Source `pcmcu_parse_frame_data` from frame.c.  `p_data`, `p_data_len`, `p_ver`,
`p_seq` model the non-NULL-ness of the `out_data`, `out_data_len`, `out_ver`,
`out_seq` pointers; the returned `ParseOuts` records every store made through
them, in the source's order (ver/seq/data_len before the capacity check on the
payload output buffer). -/
def pcmcu_parse_frame_data (frame : List Nat) (p_data : Bool) (out_data_cap : Nat)
    (p_data_len p_ver p_seq : Bool) : Int × ParseOuts :=
  if frame.length < 6 then (PCMCU_EFRAME_TOO_SHORT, noOuts)
  else if frame.getD 0 0 ≠ FRAME_HEAD ∨ frame.getD (frame.length - 1) 0 ≠ FRAME_TAIL then
    (PCMCU_EHEAD_TAIL, noOuts)
  else
    let length := frame.getD 1 0
    if length < 3 then (PCMCU_ELEN_INVALID, noOuts)
    else if frame.length ≠ length + 3 then (PCMCU_ELEN_MISMATCH, noOuts)
    else
      let ver := frame.getD 2 0
      let seq := frame.getD 3 0
      let chk := frame.getD 4 0
      let data_ptr := frame.drop 5
      let data_len := length - 3
      let chk_calc := checksum length ver seq (some data_ptr) data_len
      if chk ≠ chk_calc then (PCMCU_ECHECKSUM, noOuts)
      else
        let outs1 : ParseOuts :=
          { out_ver := if p_ver then some ver else none
            out_seq := if p_seq then some seq else none
            out_data_len := if p_data_len then some data_len else none
            out_data := none }
        if p_data then
          if out_data_cap < data_len then (PCMCU_EBUFSZ, outs1)
          else (PCMCU_OK, { outs1 with out_data := some (data_ptr.take data_len) })
        else (PCMCU_OK, outs1)

/-- Flip bit `i` of the byte at index `j`. -/
def flip_bit (bytes : List Nat) (j i : Nat) : List Nat :=
  bytes.set j ((bytes.getD j 0) ^^^ 2 ^ i)


/-! ### Validation order (C6) -/

/-- The validation cascade exactly as the spec sentence lists it: shortness,
head/tail markers, length-field lower bound, total-length consistency,
checksum — the first failing check decides the error. -/
def parse_spec_status (frame : List Nat) : Int :=
  if frame.length < 6 then PCMCU_EFRAME_TOO_SHORT
  else if frame.getD 0 0 ≠ FRAME_HEAD ∨ frame.getD (frame.length - 1) 0 ≠ FRAME_TAIL then
    PCMCU_EHEAD_TAIL
  else if frame.getD 1 0 < 3 then PCMCU_ELEN_INVALID
  else if frame.getD 1 0 + 3 ≠ frame.length then PCMCU_ELEN_MISMATCH
  else if frame.getD 4 0 ≠ checksum (frame.getD 1 0) (frame.getD 2 0) (frame.getD 3 0)
      (some (frame.drop 5)) (frame.getD 1 0 - 3) then PCMCU_ECHECKSUM
  else PCMCU_OK

/-! ### Data layer: TLV codec (data.c, registry from protocol_defs.h) -/

def DATA_OK : Int := 0
def DATA_EINVAL : Int := -1
def DATA_EBUFSZ : Int := -2
def DATA_EFMT : Int := -3
def DATA_ESIZE : Int := -4

def VAR_TEST_VAR_F32 : Nat := 0x5D
def VAR_TEST_VAR_U8 : Nat := 0x67
def VAR_TEST_VAR_U16 : Nat := 0xE6

/-- Source `VAR_SIZE_TABLE[256]` from protocol_defs.h: designated initializers for
the three fixed-width variables, all other entries 0 (variable-length). -/
def VAR_SIZE_TABLE (t : Nat) : Nat :=
  if t = VAR_TEST_VAR_F32 then 4
  else if t = VAR_TEST_VAR_U8 then 1
  else if t = VAR_TEST_VAR_U16 then 2
  else 0

/-- A `memcpy`-style splice: the buffer region with `bytes` written at `off`. -/
def write_bytes (buf : List Nat) (off : Nat) (bytes : List Nat) : List Nat :=
  buf.take off ++ bytes ++ buf.drop (off + bytes.length)

/-- Source `data_put_tlv` from data.c.  The buffer (assumed non-NULL) is the
`cap`-byte region as a list; the result is the region after the call together
with the returned write offset, `none` standing for the `(size_t)-1` failure
return (on which the source has written nothing). -/
def data_put_tlv (buf : List Nat) (cap w t : Nat) (v : Option (List Nat)) (l : Nat) :
    List Nat × Option Nat :=
  if w + 2 + l > cap then (buf, none)
  else
    if l ≠ 0 then
      match v with
      | some d => (write_bytes (write_bytes buf w [t, l]) (w + 2) (d.take l), some (w + 2 + l))
      | none => (write_bytes buf w [t, l], some (w + 2))
    else (write_bytes buf w [t, l], some (w + 2))

/-- Source `data_put_var` from data.c: checks the registry width before delegating to
`data_put_tlv`; the first component is the value stored in `*err`. -/
def data_put_var (buf : List Nat) (cap w t : Nat) (v : Option (List Nat)) (l : Nat) :
    Int × List Nat × Option Nat :=
  if VAR_SIZE_TABLE t ≠ 0 ∧ l ≠ VAR_SIZE_TABLE t then (DATA_ESIZE, buf, none)
  else
    match data_put_tlv buf cap w t v l with
    | (buf', none) => (DATA_EBUFSZ, buf', none)
    | (buf', some nw) => (DATA_OK, buf', some nw)

/-- Loop body of `data_validate_tlvs` from data.c, with explicit index `i`. -/
def validate_go (tlv : List Nat) (i : Nat) : Int :=
  if h : i < tlv.length then
    if tlv.length < i + 2 then DATA_EFMT
    else if tlv.length < i + 2 + tlv.getD (i + 1) 0 then DATA_EFMT
    else validate_go tlv (i + 2 + tlv.getD (i + 1) 0)
  else DATA_OK
termination_by tlv.length - i
decreasing_by omega

/-- Source `data_validate_tlvs` from data.c. -/
def data_validate_tlvs (tlv : List Nat) : Int := validate_go tlv 0

/-- Walk loop of `data_decode` from data.c.  The visitor `f` is the `on_tlv`
callback; besides the status, the list of all visitor invocations
`(t, value, l)` made by the loop is returned, in order. -/
def decode_go (p : List Nat) (f : Nat → List Nat → Nat → Int) (i : Nat) :
    Int × List (Nat × List Nat × Nat) :=
  if h : i < p.length then
    if VAR_SIZE_TABLE (p.getD i 0) ≠ 0 ∧ p.getD (i + 1) 0 ≠ VAR_SIZE_TABLE (p.getD i 0) then
      (DATA_ESIZE, [])
    else if f (p.getD i 0) ((p.drop (i + 2)).take (p.getD (i + 1) 0)) (p.getD (i + 1) 0) ≠ 0 then
      (f (p.getD i 0) ((p.drop (i + 2)).take (p.getD (i + 1) 0)) (p.getD (i + 1) 0),
        [(p.getD i 0, (p.drop (i + 2)).take (p.getD (i + 1) 0), p.getD (i + 1) 0)])
    else
      ((decode_go p f (i + 2 + p.getD (i + 1) 0)).1,
        (p.getD i 0, (p.drop (i + 2)).take (p.getD (i + 1) 0), p.getD (i + 1) 0)
          :: (decode_go p f (i + 2 + p.getD (i + 1) 0)).2)
  else (DATA_OK, [])
termination_by p.length - i
decreasing_by all_goals omega

/-- Source `data_decode` from data.c: header, full structural validation pass, then
the visitor walk.  Second and third components are the `*out_msg`/`*out_ver`
stores; the last is the list of visitor invocations. -/
def data_decode (data : List Nat) (f : Nat → List Nat → Nat → Int) :
    Int × Option Nat × Option Nat × List (Nat × List Nat × Nat) :=
  if data.length < 2 then (DATA_EFMT, none, none, [])
  else if data_validate_tlvs (data.drop 2) ≠ DATA_OK then
    (data_validate_tlvs (data.drop 2), some (data.getD 0 0), some (data.getD 1 0), [])
  else
    ((decode_go (data.drop 2) f 0).1, some (data.getD 0 0), some (data.getD 1 0),
      (decode_go (data.drop 2) f 0).2)

/-! ### Stream reassembler (frame.h / spec §4.4) -/

def PCMCU_STREAM_MAX_BUF : Nat := 512

/-- Modelled from the spec: the implementation of `pcmcu_stream_feed`'s
extraction loop (spec §4.4 step 2) is declared in frame.h but its `.c` body is
not in the repository snapshot.  Runs the loop on the buffered bytes: (a) stop
on empty; (b) scan to the next head marker, discarding everything before it;
(c) stop when the length byte is missing; (d)-(e) discard exactly 1 byte on an
implausible length; (f) stop until `total` bytes arrive; (g) discard exactly
1 byte on a tail-marker mismatch; (h) emit the front `total` bytes to the
visitor and remove them, aborting if the visitor returns nonzero.  Returns the
visitor invocations in order, the remaining buffer, and the status. -/
def pcmcu_stream_run (f : List Nat → Int) (buf : List Nat) :
    List (List Nat) × List Nat × Int :=
  if h0 : buf = [] then ([], [], 0)
  else if h1 : buf.getD 0 0 ≠ FRAME_HEAD then
    pcmcu_stream_run f (buf.dropWhile (fun b => b != FRAME_HEAD))
  else if buf.length < 2 then ([], buf, 0)
  else if h3 : buf.getD 1 0 < 3 then
    pcmcu_stream_run f (buf.drop 1)
  else if h4 : buf.getD 1 0 + 3 < 6 ∨ 258 < buf.getD 1 0 + 3 then
    pcmcu_stream_run f (buf.drop 1)
  else if buf.length < buf.getD 1 0 + 3 then ([], buf, 0)
  else if h6 : buf.getD (buf.getD 1 0 + 3 - 1) 0 ≠ FRAME_TAIL then
    pcmcu_stream_run f (buf.drop 1)
  else if f (buf.take (buf.getD 1 0 + 3)) ≠ 0 then
    ([buf.take (buf.getD 1 0 + 3)], buf.drop (buf.getD 1 0 + 3), f (buf.take (buf.getD 1 0 + 3)))
  else
    (buf.take (buf.getD 1 0 + 3) :: (pcmcu_stream_run f (buf.drop (buf.getD 1 0 + 3))).1,
     (pcmcu_stream_run f (buf.drop (buf.getD 1 0 + 3))).2.1,
     (pcmcu_stream_run f (buf.drop (buf.getD 1 0 + 3))).2.2)
termination_by buf.length
decreasing_by
  all_goals
    first
      | (rcases buf with _ | ⟨x, xs⟩
         · exact absurd rfl h0
         · have hx : (x != FRAME_HEAD) = true := by
             simp only [List.getD_cons_zero] at h1
             simpa using h1
           rw [List.dropWhile_cons, if_pos hx]
           have := (List.dropWhile_sublist (l := xs) (p := fun b => b != FRAME_HEAD)).length_le
           simp only [List.length_cons]
           omega)
      | (have : 0 < buf.length := List.length_pos.mpr h0
         simp only [List.length_drop]
         omega)

/-- Modelled from the spec: `feed`'s ingest step (spec §4.4 step 1): a chunk
at least as large as the capacity replaces the buffer with the chunk's last
`C` bytes; on overflow the oldest buffered bytes are evicted from the front;
otherwise the chunk is appended. -/
def pcmcu_stream_ingest (buf chunk : List Nat) : List Nat :=
  if PCMCU_STREAM_MAX_BUF ≤ chunk.length then
    chunk.drop (chunk.length - PCMCU_STREAM_MAX_BUF)
  else if PCMCU_STREAM_MAX_BUF < buf.length + chunk.length then
    buf.drop (buf.length + chunk.length - PCMCU_STREAM_MAX_BUF) ++ chunk
  else buf ++ chunk

/-- Modelled from the spec: `pcmcu_stream_feed` (declared in frame.h, body not
in the snapshot): ingest the chunk, then run the extraction loop. -/
def pcmcu_stream_feed (f : List Nat → Int) (buf chunk : List Nat) :
    List (List Nat) × List Nat × Int :=
  pcmcu_stream_run f (pcmcu_stream_ingest buf chunk)

/-- Modelled from the spec: feeding a sequence of chunks one `pcmcu_stream_feed`
call at a time, accumulating the visitor invocations; a nonzero status stops
the remaining feeds (the visitor's abort semantics). -/
def pcmcu_stream_feed_many (f : List Nat → Int) :
    List Nat → List (List Nat) → List (List Nat) × List Nat × Int
  | buf, [] => ([], buf, 0)
  | buf, c :: cs =>
    if (pcmcu_stream_feed f buf c).2.2 ≠ 0 then pcmcu_stream_feed f buf c
    else
      ((pcmcu_stream_feed f buf c).1
          ++ (pcmcu_stream_feed_many f (pcmcu_stream_feed f buf c).2.1 cs).1,
       (pcmcu_stream_feed_many f (pcmcu_stream_feed f buf c).2.1 cs).2.1,
       (pcmcu_stream_feed_many f (pcmcu_stream_feed f buf c).2.1 cs).2.2)

/-! ### Helper lemmas -/

/-- Two sums that differ by swapping a summand `a` for a different byte `b`
have different residues mod 256. -/
theorem mod256_ne_of_swap {U V a b : Nat} (h : U + a = V + b) (ha : a < 256) (hb : b < 256)
    (hne : a ≠ b) : U % 256 ≠ V % 256 := by
  intro hUV
  have h1 : U + a ≡ V + a [MOD 256] := Nat.ModEq.add_right a hUV
  rw [h] at h1
  have h2 : b ≡ a [MOD 256] := Nat.ModEq.add_left_cancel' V h1
  have h3 : b % 256 = a % 256 := h2
  rw [Nat.mod_eq_of_lt hb, Nat.mod_eq_of_lt ha] at h3
  exact hne h3.symm

/-- Flipping a bit changes the byte. -/
theorem xor_pow_ne (b i : Nat) : b ^^^ 2 ^ i ≠ b := by
  intro h
  have h1 : (b ^^^ 2 ^ i) ^^^ b = b ^^^ b := by rw [h]
  rw [Nat.xor_comm b (2 ^ i), Nat.xor_cancel_right, Nat.xor_self] at h1
  exact absurd h1 (Nat.pos_iff_ne_zero.mp (Nat.pos_pow_of_pos i (by norm_num)))

/-- Flipping a bit below 8 keeps the value a byte. -/
theorem xor_pow_lt (b i : Nat) (hb : b < 256) (hi : i < 8) : b ^^^ 2 ^ i < 256 := by
  have h2 : 2 ^ i < 2 ^ 8 := Nat.pow_lt_pow_right (by norm_num) hi
  exact Nat.xor_lt_two_pow (n := 8) hb h2

/-- Evaluation of `pcmcu_parse_frame_data` on any byte list in built-frame
shape: after the structural checks pass, the result is decided by the
checksum comparison and then by the output-buffer capacity. -/
theorem parse_frame_eval (v s c : Nat) (p : List Nat) (pd : Bool) (cap : Nat) (pl pv ps : Bool) :
    pcmcu_parse_frame_data (FRAME_HEAD :: (3 + p.length) :: v :: s :: c :: (p ++ [FRAME_TAIL]))
      pd cap pl pv ps =
    if c ≠ (3 + p.length + v + s + p.foldl (· + ·) 0) % 256 then (PCMCU_ECHECKSUM, noOuts)
    else if pd then
      if cap < p.length then
        (PCMCU_EBUFSZ, ⟨if pv then some v else none, if ps then some s else none,
          if pl then some p.length else none, none⟩)
      else
        (PCMCU_OK, ⟨if pv then some v else none, if ps then some s else none,
          if pl then some p.length else none, some p⟩)
    else
      (PCMCU_OK, ⟨if pv then some v else none, if ps then some s else none,
        if pl then some p.length else none, none⟩) := by
  have hlen : (FRAME_HEAD :: (3 + p.length) :: v :: s :: c :: (p ++ [FRAME_TAIL])).length
      = p.length + 6 := by simp
  have htail : (FRAME_HEAD :: (3 + p.length) :: v :: s :: c :: (p ++ [FRAME_TAIL])).getD
      (p.length + 6 - 1) 0 = FRAME_TAIL := by
    have hsplit : FRAME_HEAD :: (3 + p.length) :: v :: s :: c :: (p ++ [FRAME_TAIL])
        = ([FRAME_HEAD, 3 + p.length, v, s, c] ++ p) ++ [FRAME_TAIL] := by simp
    rw [hsplit, List.getD_append_right]
    · simp
    · simp
  have htake : (p ++ [FRAME_TAIL]).take (3 + p.length - 3) = p := by
    simp [List.take_left']
  unfold pcmcu_parse_frame_data
  rw [hlen, htail]
  simp only [List.getD_cons_zero, List.getD_cons_succ]
  rw [if_neg (by omega), if_neg (by simp), if_neg (by omega), if_neg (by omega)]
  simp only [List.drop_succ_cons, List.drop_zero, checksum, sum_bytes, htake]
  have harith : 3 + p.length - 3 = p.length := by omega
  rw [harith]

/-- Evaluation of `pcmcu_build_frame` on a non-null payload that fits. -/
theorem build_frame_eval (seq ver : Nat) (p : List Nat) (hle : p.length ≤ 252) (sz : Nat)
    (hsz : p.length + 6 ≤ sz) :
    pcmcu_build_frame seq (some p) p.length ver sz =
      .ok (FRAME_HEAD :: (3 + p.length) :: ver :: seq ::
            ((3 + p.length + ver + seq + p.foldl (· + ·) 0) % 256) :: (p ++ [FRAME_TAIL]),
          p.length + 6) := by
  have hmod : (3 + p.length % 256) % 256 = 3 + p.length := by
    rw [Nat.mod_eq_of_lt (by omega), Nat.mod_eq_of_lt (by omega)]
  unfold pcmcu_build_frame
  rw [if_neg (by simp [MAX_DATA_LEN]; omega), if_neg (by simp [frame_size_for]; omega)]
  simp only [hmod, checksum, sum_bytes, List.take_length]
  rcases p with _ | ⟨b, p'⟩
  · simp
  · simp

/-- C1: building a frame from any `seq`, `ver` and payload of length ≤ 252 and
parsing it back (with a big enough output buffer) succeeds and returns exactly
the original `seq`, `ver` and payload bytes. -/
theorem frame_roundtrip (seq ver : Nat) (p : List Nat)
    (_hseq : seq < 256) (_hver : ver < 256) (_hbytes : ∀ b ∈ p, b < 256) (hp : p.length ≤ 252)
    (sz cap : Nat) (hsz : p.length + 6 ≤ sz) (hcap : p.length ≤ cap) :
    ∃ bytes : List Nat,
      pcmcu_build_frame seq (some p) (p.length) ver sz = .ok (bytes, p.length + 6) ∧
      pcmcu_parse_frame_data bytes true cap true true true =
        (PCMCU_OK, ⟨some ver, some seq, some p.length, some p⟩) := by
  refine ⟨_, build_frame_eval seq ver p hp sz hsz, ?_⟩
  rw [parse_frame_eval]
  rw [if_neg (by simp), if_pos rfl, if_neg (by omega)]
  simp

/-- C1 witness: the round-trip at a concrete input. -/
theorem frame_roundtrip_witness :
    ∃ bytes : List Nat,
      pcmcu_build_frame 1 (some [0x10, 0x20, 0x30]) 3 0 16 = .ok (bytes, 9) ∧
      pcmcu_parse_frame_data bytes true 16 true true true =
        (PCMCU_OK, ⟨some 0, some 1, some 3, some [0x10, 0x20, 0x30]⟩) :=
  frame_roundtrip 1 0 [0x10, 0x20, 0x30] (by decide) (by decide) (by decide) (by decide)
    16 16 (by decide) (by decide)

/-! Sum-shift helpers for bit flips (C2). -/

theorem foldl_add_acc (p : List Nat) : ∀ a : Nat, p.foldl (· + ·) a = a + p.foldl (· + ·) 0 := by
  induction p with
  | nil => simp
  | cons b t ih =>
    intro a
    simp only [List.foldl_cons]
    rw [ih (a + b), ih (0 + b)]
    omega

theorem foldl_set_shift (p : List Nat) (k x : Nat) (hk : k < p.length) :
    (p.set k x).foldl (· + ·) 0 + p.getD k 0 = p.foldl (· + ·) 0 + x := by
  induction p generalizing k with
  | nil => simp at hk
  | cons b t ih =>
    cases k with
    | zero =>
      simp only [List.set_cons_zero, List.foldl_cons, List.getD_cons_zero]
      rw [foldl_add_acc t (0 + x), foldl_add_acc t (0 + b)]
      omega
    | succ k' =>
      have hk' : k' < t.length := by simpa using hk
      simp only [List.set_cons_succ, List.foldl_cons, List.getD_cons_succ]
      rw [foldl_add_acc (t.set k' x) (0 + b), foldl_add_acc t (0 + b)]
      have := ih k' hk'
      omega

/-- C2 counterexample: the claim includes the length byte among the flippable
bytes, but flipping bit 0 of the length byte of the frame built from
`seq=0, ver=0, payload=[]` makes parsing fail with `LengthFieldInvalid`,
not `ChecksumMismatch`. -/
theorem checksum_flip_counterexample :
    pcmcu_build_frame 0 (some []) 0 0 6 = .ok ([0xAA, 3, 0, 0, 3, 0x55], 6) ∧
    flip_bit [0xAA, 3, 0, 0, 3, 0x55] 1 0 = [0xAA, 2, 0, 0, 3, 0x55] ∧
    (pcmcu_parse_frame_data [0xAA, 2, 0, 0, 3, 0x55] false 0 true true true).1
      = PCMCU_ELEN_INVALID ∧
    PCMCU_ELEN_INVALID ≠ PCMCU_ECHECKSUM :=
  ⟨rfl, by decide, by decide, by decide⟩

/-- C2 (amended): flipping any single bit of the version, sequence, or a
payload byte of a built frame (indices 2, 3, or 5..5+N-1; the length byte is
excluded, a flip there fails the length checks instead) makes
`pcmcu_parse_frame_data` fail with `ChecksumMismatch`. -/
theorem checksum_flip_amended (seq ver : Nat) (p : List Nat) (i j : Nat)
    (_hseq : seq < 256) (hver : ver < 256) (hbytes : ∀ b ∈ p, b < 256) (hp : p.length ≤ 252)
    (hi : i < 8) (hj : j = 2 ∨ j = 3 ∨ (5 ≤ j ∧ j < 5 + p.length))
    (sz : Nat) (hsz : p.length + 6 ≤ sz) (bytes : List Nat) (flen : Nat)
    (hbuild : pcmcu_build_frame seq (some p) p.length ver sz = .ok (bytes, flen)) :
    (pcmcu_parse_frame_data (flip_bit bytes j i) false 0 true true true).1
      = PCMCU_ECHECKSUM := by
  rw [build_frame_eval seq ver p hp sz hsz] at hbuild
  simp only [Except.ok.injEq, Prod.mk.injEq] at hbuild
  obtain ⟨hbytes_eq, -⟩ := hbuild
  subst hbytes_eq
  rcases hj with rfl | rfl | ⟨hj5, hjlt⟩
  · have hset : flip_bit (FRAME_HEAD :: (3 + p.length) :: ver :: seq ::
        ((3 + p.length + ver + seq + p.foldl (· + ·) 0) % 256) :: (p ++ [FRAME_TAIL])) 2 i
        = FRAME_HEAD :: (3 + p.length) :: (ver ^^^ 2 ^ i) :: seq ::
          ((3 + p.length + ver + seq + p.foldl (· + ·) 0) % 256) :: (p ++ [FRAME_TAIL]) := by
      simp [flip_bit]
    have hne : (3 + p.length + ver + seq + p.foldl (· + ·) 0) % 256
        ≠ (3 + p.length + (ver ^^^ 2 ^ i) + seq + p.foldl (· + ·) 0) % 256 :=
      mod256_ne_of_swap (a := ver ^^^ 2 ^ i) (b := ver) (by omega)
        (xor_pow_lt ver i hver hi) hver (xor_pow_ne ver i)
    rw [hset, parse_frame_eval, if_pos hne]
  · have hset : flip_bit (FRAME_HEAD :: (3 + p.length) :: ver :: seq ::
        ((3 + p.length + ver + seq + p.foldl (· + ·) 0) % 256) :: (p ++ [FRAME_TAIL])) 3 i
        = FRAME_HEAD :: (3 + p.length) :: ver :: (seq ^^^ 2 ^ i) ::
          ((3 + p.length + ver + seq + p.foldl (· + ·) 0) % 256) :: (p ++ [FRAME_TAIL]) := by
      simp [flip_bit]
    have hne : (3 + p.length + ver + seq + p.foldl (· + ·) 0) % 256
        ≠ (3 + p.length + ver + (seq ^^^ 2 ^ i) + p.foldl (· + ·) 0) % 256 :=
      mod256_ne_of_swap (a := seq ^^^ 2 ^ i) (b := seq) (by omega)
        (xor_pow_lt seq i _hseq hi) _hseq (xor_pow_ne seq i)
    rw [hset, parse_frame_eval, if_pos hne]
  · obtain ⟨k, rfl⟩ : ∃ k, j = 5 + k := ⟨j - 5, by omega⟩
    have hk : k < p.length := by omega
    have hmem : p.getD k 0 ∈ p := by
      rw [List.getD_eq_getElem _ _ hk]
      exact List.getElem_mem hk
    have hbk : p.getD k 0 < 256 := hbytes _ hmem
    have hgetD : (FRAME_HEAD :: (3 + p.length) :: ver :: seq ::
        ((3 + p.length + ver + seq + p.foldl (· + ·) 0) % 256) ::
        (p ++ [FRAME_TAIL])).getD (5 + k) 0 = p.getD k 0 := by
      have h5 : FRAME_HEAD :: (3 + p.length) :: ver :: seq ::
          ((3 + p.length + ver + seq + p.foldl (· + ·) 0) % 256) :: (p ++ [FRAME_TAIL])
          = [FRAME_HEAD, 3 + p.length, ver, seq,
             (3 + p.length + ver + seq + p.foldl (· + ·) 0) % 256] ++ (p ++ [FRAME_TAIL]) := by
        simp
      rw [h5, List.getD_append_right _ _ _ _ (by simp), List.getD_append _ _ _ _ (by simpa)]
      simp
    have hset : flip_bit (FRAME_HEAD :: (3 + p.length) :: ver :: seq ::
        ((3 + p.length + ver + seq + p.foldl (· + ·) 0) % 256) :: (p ++ [FRAME_TAIL])) (5 + k) i
        = FRAME_HEAD :: (3 + p.length) :: ver :: seq ::
          ((3 + p.length + ver + seq + p.foldl (· + ·) 0) % 256) ::
          ((p.set k (p.getD k 0 ^^^ 2 ^ i)) ++ [FRAME_TAIL]) := by
      rw [flip_bit, hgetD]
      have h5 : FRAME_HEAD :: (3 + p.length) :: ver :: seq ::
          ((3 + p.length + ver + seq + p.foldl (· + ·) 0) % 256) :: (p ++ [FRAME_TAIL])
          = [FRAME_HEAD, 3 + p.length, ver, seq,
             (3 + p.length + ver + seq + p.foldl (· + ·) 0) % 256] ++ (p ++ [FRAME_TAIL]) := by
        simp
      rw [h5, List.set_append_right _ _ (by simp)]
      simp [List.set_append_left _ _ (by simpa using hk)]
    have hshift := foldl_set_shift p k (p.getD k 0 ^^^ 2 ^ i) hk
    have hne : (3 + p.length + ver + seq + p.foldl (· + ·) 0) % 256
        ≠ (3 + p.length + ver + seq +
            (p.set k (p.getD k 0 ^^^ 2 ^ i)).foldl (· + ·) 0) % 256 :=
      mod256_ne_of_swap (a := p.getD k 0 ^^^ 2 ^ i) (b := p.getD k 0) (by omega)
        (xor_pow_lt _ i hbk hi) hbk (xor_pow_ne _ i)
    rw [hset]
    rw [show (3 : Nat) + p.length = 3 + (p.set k (p.getD k 0 ^^^ 2 ^ i)).length by simp]
    rw [parse_frame_eval, if_pos (by simpa using hne)]

/-- C2 (amended) witness: flipping bit 0 of the first payload byte of the
frame built from `seq=1, ver=0, payload=[0x10,0x20,0x30]` fails with
`ChecksumMismatch`. -/
theorem checksum_flip_amended_witness :
    (pcmcu_parse_frame_data (flip_bit [0xAA, 6, 0, 1, 0x67, 0x10, 0x20, 0x30, 0x55] 5 0)
        false 0 true true true).1 = PCMCU_ECHECKSUM :=
  checksum_flip_amended 1 0 [0x10, 0x20, 0x30] 0 5 (by decide) (by decide) (by decide)
    (by decide) (by decide) (by decide) 16 (by decide) _ 9 rfl

/-- C3: on a frame that passes every validation (length, head/tail, length
field, total length, checksum) but whose payload exceeds the non-null output
buffer's capacity, `pcmcu_parse_frame_data` fails with `BufferTooSmall` and
has still stored the version, sequence and payload length through the
out-parameters. -/
theorem parse_bufsz_reports_outs (frame : List Nat) (cap : Nat)
    (hlen : 6 ≤ frame.length)
    (hhead : frame.getD 0 0 = FRAME_HEAD) (htail : frame.getD (frame.length - 1) 0 = FRAME_TAIL)
    (_hfield : 3 ≤ frame.getD 1 0) (htot : frame.length = frame.getD 1 0 + 3)
    (hchk : frame.getD 4 0 = checksum (frame.getD 1 0) (frame.getD 2 0) (frame.getD 3 0)
      (some (frame.drop 5)) (frame.getD 1 0 - 3))
    (hcap : cap < frame.getD 1 0 - 3) :
    pcmcu_parse_frame_data frame true cap true true true =
      (PCMCU_EBUFSZ, ⟨some (frame.getD 2 0), some (frame.getD 3 0),
        some (frame.getD 1 0 - 3), none⟩) := by
  unfold pcmcu_parse_frame_data
  rw [if_neg (by omega), if_neg (by push_neg; exact ⟨hhead, htail⟩), if_neg (by omega),
    if_neg (by omega), if_neg (not_ne_iff.mpr hchk), if_pos rfl, if_pos hcap]
  simp

/-- C3 witness: a valid 3-byte-payload frame parsed into a 0-capacity output
buffer fails `BufferTooSmall` yet reports `ver=0`, `seq=1`, `len=3`. -/
theorem parse_bufsz_reports_outs_witness :
    pcmcu_parse_frame_data [0xAA, 6, 0, 1, 0x67, 0x10, 0x20, 0x30, 0x55] true 0 true true true =
      (PCMCU_EBUFSZ, ⟨some 0, some 1, some 3, none⟩) :=
  parse_bufsz_reports_outs [0xAA, 6, 0, 1, 0x67, 0x10, 0x20, 0x30, 0x55] 0 (by decide)
    (by decide) (by decide) (by decide) (by decide) (by decide) (by decide)

/-- C6: on every input (in validate-only mode) `pcmcu_parse_frame_data`
returns exactly the error of the first failing check, in the spec's order. -/
theorem parse_error_order (frame : List Nat) :
    (pcmcu_parse_frame_data frame false 0 true true true).1 = parse_spec_status frame := by
  unfold pcmcu_parse_frame_data parse_spec_status
  by_cases h1 : frame.length < 6
  · rw [if_pos h1, if_pos h1]
  rw [if_neg h1, if_neg h1]
  by_cases h2 : frame.getD 0 0 ≠ FRAME_HEAD ∨ frame.getD (frame.length - 1) 0 ≠ FRAME_TAIL
  · rw [if_pos h2, if_pos h2]
  rw [if_neg h2, if_neg h2]
  by_cases h3 : frame.getD 1 0 < 3
  · rw [if_pos h3, if_pos h3]
  rw [if_neg h3, if_neg h3]
  by_cases h4 : frame.length = frame.getD 1 0 + 3
  · rw [if_neg (by omega : ¬ frame.length ≠ frame.getD 1 0 + 3),
      if_neg (by omega : ¬ frame.getD 1 0 + 3 ≠ frame.length)]
    by_cases h5 : frame.getD 4 0 = checksum (frame.getD 1 0) (frame.getD 2 0) (frame.getD 3 0)
        (some (frame.drop 5)) (frame.getD 1 0 - 3)
    · rw [if_neg (not_ne_iff.mpr h5), if_neg (not_ne_iff.mpr h5)]
      simp
    · rw [if_pos h5, if_pos h5]
  · rw [if_pos (by omega : frame.length ≠ frame.getD 1 0 + 3),
      if_pos (by omega : frame.getD 1 0 + 3 ≠ frame.length)]

/-! ### The spec's concrete example (C7) -/

/-- C7 counterexample: the spec's example miscomputes the checksum.
`(6+0+1+0x10+0x20+0x30) mod 256` is `0x67`, not `0x6D`: the built frame is
`AA 06 00 01 67 10 20 30 55`, and parsing the spec's claimed bytes
`AA 06 00 01 6D 10 20 30 55` fails with `ChecksumMismatch`. -/
theorem concrete_example_counterexample :
    pcmcu_build_frame 1 (some [0x10, 0x20, 0x30]) 3 0 9
      = .ok ([0xAA, 0x06, 0x00, 0x01, 0x67, 0x10, 0x20, 0x30, 0x55], 9) ∧
    pcmcu_build_frame 1 (some [0x10, 0x20, 0x30]) 3 0 9
      ≠ .ok ([0xAA, 0x06, 0x00, 0x01, 0x6D, 0x10, 0x20, 0x30, 0x55], 9) ∧
    (6 + 0 + 1 + 0x10 + 0x20 + 0x30) % 256 = 0x67 ∧
    (0x67 : Nat) ≠ 0x6D ∧
    (pcmcu_parse_frame_data [0xAA, 0x06, 0x00, 0x01, 0x6D, 0x10, 0x20, 0x30, 0x55]
        true 16 true true true).1 = PCMCU_ECHECKSUM := by
  refine ⟨rfl, ?_, by decide, by decide, by decide⟩
  intro h
  rw [show pcmcu_build_frame 1 (some [0x10, 0x20, 0x30]) 3 0 9
      = .ok ([0xAA, 0x06, 0x00, 0x01, 0x67, 0x10, 0x20, 0x30, 0x55], 9) from rfl] at h
  simp at h

/-- C7 (amended): with the checksum computed correctly (`0x67`), the spec's
example holds: the build produces `AA 06 00 01 67 10 20 30 55` and parsing
those 9 bytes returns `ver=0, seq=1, payload=[0x10,0x20,0x30]`. -/
theorem concrete_example_amended :
    pcmcu_build_frame 1 (some [0x10, 0x20, 0x30]) 3 0 9
      = .ok ([0xAA, 0x06, 0x00, 0x01, 0x67, 0x10, 0x20, 0x30, 0x55], 9) ∧
    pcmcu_parse_frame_data [0xAA, 0x06, 0x00, 0x01, 0x67, 0x10, 0x20, 0x30, 0x55]
        true 16 true true true
      = (PCMCU_OK, ⟨some 0, some 1, some 3, some [0x10, 0x20, 0x30]⟩) :=
  ⟨rfl, by decide⟩

/-! ### NULL data pointer in build (C10) -/

/-- C10: `pcmcu_build_frame` with a NULL data pointer and a nonzero declared
length succeeds, writes only 6 bytes and reports frame length 6, but sets the
LEN field to `3 + data_len` with a checksum over an empty payload; parsing
those 6 bytes then fails with `LengthMismatch`. -/
theorem build_null_data (seq ver n : Nat) (h1 : 1 ≤ n) (h2 : n ≤ 252)
    (sz : Nat) (hsz : n + 6 ≤ sz) :
    pcmcu_build_frame seq none n ver sz =
      .ok ([FRAME_HEAD, 3 + n, ver, seq, (3 + n + ver + seq) % 256, FRAME_TAIL], 6) ∧
    (pcmcu_parse_frame_data [FRAME_HEAD, 3 + n, ver, seq, (3 + n + ver + seq) % 256, FRAME_TAIL]
        false 0 true true true).1 = PCMCU_ELEN_MISMATCH ∧
    PCMCU_ELEN_MISMATCH ≠ PCMCU_OK := by
  have hmod : (3 + n % 256) % 256 = 3 + n := by
    rw [Nat.mod_eq_of_lt (by omega), Nat.mod_eq_of_lt (by omega)]
  refine ⟨?_, ?_, by decide⟩
  · unfold pcmcu_build_frame
    rw [if_neg (by simp [MAX_DATA_LEN]; omega), if_neg (by simp [frame_size_for]; omega)]
    simp [hmod, checksum, sum_bytes]
  · unfold pcmcu_parse_frame_data
    rw [if_neg (by simp)]
    rw [if_neg (by simp [FRAME_HEAD, FRAME_TAIL])]
    rw [if_neg (by simp [List.getD_cons_succ]; try omega)]
    rw [if_pos (by simp [List.getD_cons_succ]; try omega)]

/-! Step equations for the extraction loop. -/

theorem run_nil (f : List Nat → Int) : pcmcu_stream_run f [] = ([], [], 0) := by
  rw [pcmcu_stream_run]
  simp

theorem run_scan (f : List Nat → Int) (x : Nat) (xs : List Nat) (hx : x ≠ FRAME_HEAD) :
    pcmcu_stream_run f (x :: xs)
      = pcmcu_stream_run f (xs.dropWhile (fun b => b != FRAME_HEAD)) := by
  rw [pcmcu_stream_run, dif_neg (by simp), dif_pos (by simpa using hx),
    List.dropWhile_cons, if_pos (by simpa using hx)]

theorem run_one (f : List Nat → Int) :
    pcmcu_stream_run f [FRAME_HEAD] = ([], [FRAME_HEAD], 0) := by
  rw [pcmcu_stream_run, dif_neg (by simp), dif_neg (by simp), if_pos (by simp)]

theorem run_badlen (f : List Nat → Int) (b : List Nat) (hne : b ≠ [])
    (hhead : b.getD 0 0 = FRAME_HEAD) (hlen : 2 ≤ b.length) (hL : b.getD 1 0 < 3) :
    pcmcu_stream_run f b = pcmcu_stream_run f (b.drop 1) := by
  rw [pcmcu_stream_run, dif_neg hne, dif_neg (not_ne_iff.mpr hhead), if_neg (by omega),
    dif_pos hL]

theorem run_badrange (f : List Nat → Int) (b : List Nat) (hne : b ≠ [])
    (hhead : b.getD 0 0 = FRAME_HEAD) (hlen : 2 ≤ b.length) (hL : ¬ b.getD 1 0 < 3)
    (h4 : b.getD 1 0 + 3 < 6 ∨ 258 < b.getD 1 0 + 3) :
    pcmcu_stream_run f b = pcmcu_stream_run f (b.drop 1) := by
  rw [pcmcu_stream_run, dif_neg hne, dif_neg (not_ne_iff.mpr hhead), if_neg (by omega),
    dif_neg hL, dif_pos h4]

theorem run_wait (f : List Nat → Int) (b : List Nat) (hne : b ≠ [])
    (hhead : b.getD 0 0 = FRAME_HEAD) (hlen : 2 ≤ b.length) (hL : 3 ≤ b.getD 1 0)
    (hrange : b.getD 1 0 + 3 ≤ 258) (hwait : b.length < b.getD 1 0 + 3) :
    pcmcu_stream_run f b = ([], b, 0) := by
  rw [pcmcu_stream_run, dif_neg hne, dif_neg (not_ne_iff.mpr hhead), if_neg (by omega),
    dif_neg (by omega), dif_neg (by omega), if_pos hwait]

theorem run_badtail (f : List Nat → Int) (b : List Nat) (hne : b ≠ [])
    (hhead : b.getD 0 0 = FRAME_HEAD) (hlen : 2 ≤ b.length) (hL : 3 ≤ b.getD 1 0)
    (hrange : b.getD 1 0 + 3 ≤ 258) (hfit : b.getD 1 0 + 3 ≤ b.length)
    (htail : b.getD (b.getD 1 0 + 3 - 1) 0 ≠ FRAME_TAIL) :
    pcmcu_stream_run f b = pcmcu_stream_run f (b.drop 1) := by
  rw [pcmcu_stream_run, dif_neg hne, dif_neg (not_ne_iff.mpr hhead), if_neg (by omega),
    dif_neg (by omega), dif_neg (by omega), if_neg (by omega), dif_pos htail]

theorem run_frame (f : List Nat → Int) (b : List Nat) (hne : b ≠ [])
    (hhead : b.getD 0 0 = FRAME_HEAD) (hlen : 2 ≤ b.length) (hL : 3 ≤ b.getD 1 0)
    (hrange : b.getD 1 0 + 3 ≤ 258) (hfit : b.getD 1 0 + 3 ≤ b.length)
    (htail : b.getD (b.getD 1 0 + 3 - 1) 0 = FRAME_TAIL)
    (hf0 : f (b.take (b.getD 1 0 + 3)) = 0) :
    pcmcu_stream_run f b
      = (b.take (b.getD 1 0 + 3) :: (pcmcu_stream_run f (b.drop (b.getD 1 0 + 3))).1,
         (pcmcu_stream_run f (b.drop (b.getD 1 0 + 3))).2.1,
         (pcmcu_stream_run f (b.drop (b.getD 1 0 + 3))).2.2) := by
  rw [pcmcu_stream_run, dif_neg hne, dif_neg (not_ne_iff.mpr hhead), if_neg (by omega),
    dif_neg (by omega), dif_neg (by omega), if_neg (by omega), dif_neg (not_ne_iff.mpr htail),
    if_neg (not_ne_iff.mpr hf0)]

theorem run_abort (f : List Nat → Int) (b : List Nat) (hne : b ≠ [])
    (hhead : b.getD 0 0 = FRAME_HEAD) (hlen : 2 ≤ b.length) (hL : 3 ≤ b.getD 1 0)
    (hrange : b.getD 1 0 + 3 ≤ 258) (hfit : b.getD 1 0 + 3 ≤ b.length)
    (htail : b.getD (b.getD 1 0 + 3 - 1) 0 = FRAME_TAIL)
    (hf1 : f (b.take (b.getD 1 0 + 3)) ≠ 0) :
    pcmcu_stream_run f b
      = ([b.take (b.getD 1 0 + 3)], b.drop (b.getD 1 0 + 3),
         f (b.take (b.getD 1 0 + 3))) := by
  rw [pcmcu_stream_run, dif_neg hne, dif_neg (not_ne_iff.mpr hhead), if_neg (by omega),
    dif_neg (by omega), dif_neg (by omega), if_neg (by omega), dif_neg (not_ne_iff.mpr htail),
    if_pos hf1]

theorem run_dropWhile (f : List Nat → Int) (m : List Nat) :
    pcmcu_stream_run f (m.dropWhile (fun b => b != FRAME_HEAD)) = pcmcu_stream_run f m := by
  cases m with
  | nil => rfl
  | cons y ys =>
    by_cases hy : y = FRAME_HEAD
    · rw [List.dropWhile_cons, if_neg (by simp [hy])]
    · rw [List.dropWhile_cons, if_pos (by simpa using hy), run_scan f y ys hy]

/-- With a non-aborting visitor the extraction loop never leaves bytes beyond
its input behind and always reports status 0. -/
theorem run_props (f : List Nat → Int) (hf : ∀ fr, f fr = 0) :
    ∀ (N : Nat) (b : List Nat), b.length ≤ N →
      (pcmcu_stream_run f b).2.1.length ≤ b.length ∧ (pcmcu_stream_run f b).2.2 = 0 := by
  intro N
  induction N with
  | zero =>
    intro b hb
    have hbnil : b = [] := List.length_eq_zero.mp (by omega)
    subst hbnil
    rw [run_nil]
    simp
  | succ n ih =>
    intro b hb
    rcases b with _ | ⟨x, xs⟩
    · rw [run_nil]; simp
    · by_cases hx : x = FRAME_HEAD
      · subst hx
        rcases xs with _ | ⟨y, ys⟩
        · rw [run_one]; simp
        · by_cases h3 : y < 3
          · rw [run_badlen f (FRAME_HEAD :: y :: ys) (by simp) rfl (by simp) h3,
              show (FRAME_HEAD :: y :: ys).drop 1 = y :: ys from rfl]
            have H := ih (y :: ys) (by simp only [List.length_cons] at hb ⊢; omega)
            exact ⟨by simp only [List.length_cons] at H ⊢; omega, H.2⟩
          · by_cases h4 : y + 3 < 6 ∨ 258 < y + 3
            · rw [run_badrange f (FRAME_HEAD :: y :: ys) (by simp) rfl (by simp) h3 h4,
                show (FRAME_HEAD :: y :: ys).drop 1 = y :: ys from rfl]
              have H := ih (y :: ys) (by simp only [List.length_cons] at hb ⊢; omega)
              exact ⟨by simp only [List.length_cons] at H ⊢; omega, H.2⟩
            · by_cases h5 : ys.length + 2 < y + 3
              · rw [run_wait f (FRAME_HEAD :: y :: ys) (by simp) rfl (by simp)
                  (by show 3 ≤ y; omega) (by show y + 3 ≤ 258; omega)
                  (by show ys.length + 1 + 1 < y + 3; omega)]
                exact ⟨le_refl _, rfl⟩
              · by_cases h6 : ys.getD y 0 ≠ FRAME_TAIL
                · rw [run_badtail f (FRAME_HEAD :: y :: ys) (by simp) rfl (by simp)
                    (by show 3 ≤ y; omega) (by show y + 3 ≤ 258; omega)
                    (by show y + 3 ≤ ys.length + 1 + 1; omega) h6,
                    show (FRAME_HEAD :: y :: ys).drop 1 = y :: ys from rfl]
                  have H := ih (y :: ys) (by simp only [List.length_cons] at hb ⊢; omega)
                  exact ⟨by simp only [List.length_cons] at H ⊢; omega, H.2⟩
                · rw [run_frame f (FRAME_HEAD :: y :: ys) (by simp) rfl (by simp)
                    (by show 3 ≤ y; omega) (by show y + 3 ≤ 258; omega)
                    (by show y + 3 ≤ ys.length + 1 + 1; omega)
                    (not_ne_iff.mp h6) (hf _),
                    show ((FRAME_HEAD :: y :: ys).getD 1 0) = y from rfl,
                    show (FRAME_HEAD :: y :: ys).drop (y + 3) = ys.drop (y + 1) from rfl]
                  have H := ih (ys.drop (y + 1))
                    (by simp only [List.length_cons] at hb; simp only [List.length_drop]; omega)
                  refine ⟨?_, H.2⟩
                  show (pcmcu_stream_run f (ys.drop (y + 1))).2.1.length
                      ≤ (FRAME_HEAD :: y :: ys).length
                  have := H.1
                  simp only [List.length_drop] at this ⊢
                  simp only [List.length_cons]
                  omega
      · rw [run_scan f x xs hx]
        have hsub := (List.dropWhile_sublist (l := xs) (p := fun b => b != FRAME_HEAD)).length_le
        have H := ih (xs.dropWhile (fun b => b != FRAME_HEAD))
          (by simp only [List.length_cons] at hb; omega)
        exact ⟨by simp only [List.length_cons]; omega, H.2⟩

/-- The incremental-extraction lemma: if the loop on `b` stops normally with
leftover `r`, then running it on `b ++ m` emits the same frames followed by
whatever running on `r ++ m` emits. -/
theorem run_append (f : List Nat → Int) :
    ∀ (N : Nat) (b : List Nat), b.length ≤ N →
      ∀ fs r, pcmcu_stream_run f b = (fs, r, 0) →
      ∀ m, pcmcu_stream_run f (b ++ m)
        = (fs ++ (pcmcu_stream_run f (r ++ m)).1,
           (pcmcu_stream_run f (r ++ m)).2.1, (pcmcu_stream_run f (r ++ m)).2.2) := by
  intro N
  induction N with
  | zero =>
    intro b hb fs r hrun m
    have hbnil : b = [] := List.length_eq_zero.mp (by omega)
    subst hbnil
    rw [run_nil] at hrun
    simp only [Prod.mk.injEq] at hrun
    obtain ⟨h1, h2, -⟩ := hrun
    subst h1; subst h2
    simp only [List.nil_append]
  | succ n ih =>
    intro b hb fs r hrun m
    rcases b with _ | ⟨x, xs⟩
    · rw [run_nil] at hrun
      simp only [Prod.mk.injEq] at hrun
      obtain ⟨h1, h2, -⟩ := hrun
      subst h1; subst h2
      simp only [List.nil_append]
    · by_cases hx : x = FRAME_HEAD
      · subst hx
        rcases xs with _ | ⟨y, ys⟩
        · rw [run_one] at hrun
          simp only [Prod.mk.injEq] at hrun
          obtain ⟨h1, h2, -⟩ := hrun
          subst h1; subst h2
          simp only [List.cons_append, List.nil_append]
        · have hcons : (FRAME_HEAD :: y :: ys) ++ m = FRAME_HEAD :: y :: (ys ++ m) := rfl
          by_cases h3 : y < 3
          · rw [run_badlen f (FRAME_HEAD :: y :: ys) (by simp) rfl (by simp) h3,
              show (FRAME_HEAD :: y :: ys).drop 1 = y :: ys from rfl] at hrun
            rw [hcons, run_badlen f (FRAME_HEAD :: y :: (ys ++ m)) (by simp) rfl (by simp) h3,
              show (FRAME_HEAD :: y :: (ys ++ m)).drop 1 = (y :: ys) ++ m from rfl]
            exact ih (y :: ys) (by simp only [List.length_cons] at hb ⊢; omega) fs r hrun m
          · by_cases h4 : y + 3 < 6 ∨ 258 < y + 3
            · rw [run_badrange f (FRAME_HEAD :: y :: ys) (by simp) rfl (by simp) h3 h4,
                show (FRAME_HEAD :: y :: ys).drop 1 = y :: ys from rfl] at hrun
              rw [hcons,
                run_badrange f (FRAME_HEAD :: y :: (ys ++ m)) (by simp) rfl (by simp) h3 h4,
                show (FRAME_HEAD :: y :: (ys ++ m)).drop 1 = (y :: ys) ++ m from rfl]
              exact ih (y :: ys) (by simp only [List.length_cons] at hb ⊢; omega) fs r hrun m
            · by_cases h5 : ys.length + 2 < y + 3
              · rw [run_wait f (FRAME_HEAD :: y :: ys) (by simp) rfl (by simp)
                  (by show 3 ≤ y; omega) (by show y + 3 ≤ 258; omega)
                  (by show ys.length + 1 + 1 < y + 3; omega)] at hrun
                simp only [Prod.mk.injEq] at hrun
                obtain ⟨h1, h2, -⟩ := hrun
                subst h1; subst h2
                simp only [List.nil_append]
              · have hyslen : y + 1 ≤ ys.length := by omega
                by_cases h6 : ys.getD y 0 ≠ FRAME_TAIL
                · have htail' : (ys ++ m).getD y 0 ≠ FRAME_TAIL := by
                    rw [List.getD_append ys m 0 y (by omega)]; exact h6
                  rw [run_badtail f (FRAME_HEAD :: y :: ys) (by simp) rfl (by simp)
                      (by show 3 ≤ y; omega) (by show y + 3 ≤ 258; omega)
                      (by show y + 3 ≤ ys.length + 1 + 1; omega) h6,
                    show (FRAME_HEAD :: y :: ys).drop 1 = y :: ys from rfl] at hrun
                  rw [hcons, run_badtail f (FRAME_HEAD :: y :: (ys ++ m)) (by simp) rfl (by simp)
                      (by show 3 ≤ y; omega) (by show y + 3 ≤ 258; omega)
                      (by show y + 3 ≤ (ys ++ m).length + 1 + 1
                          simp only [List.length_append]; omega) htail',
                    show (FRAME_HEAD :: y :: (ys ++ m)).drop 1 = (y :: ys) ++ m from rfl]
                  exact ih (y :: ys) (by simp only [List.length_cons] at hb ⊢; omega) fs r hrun m
                · have htail := not_ne_iff.mp h6
                  have htail' : (ys ++ m).getD y 0 = FRAME_TAIL := by
                    rw [List.getD_append ys m 0 y (by omega)]; exact htail
                  by_cases h7 : f ((FRAME_HEAD :: y :: ys).take (y + 3)) = 0
                  · rw [run_frame f (FRAME_HEAD :: y :: ys) (by simp) rfl (by simp)
                        (by show 3 ≤ y; omega) (by show y + 3 ≤ 258; omega)
                        (by show y + 3 ≤ ys.length + 1 + 1; omega) htail h7,
                      show ((FRAME_HEAD :: y :: ys).getD 1 0) = y from rfl,
                      show (FRAME_HEAD :: y :: ys).drop (y + 3) = ys.drop (y + 1) from rfl] at hrun
                    simp only [Prod.mk.injEq] at hrun
                    obtain ⟨h1, h2, h3st⟩ := hrun
                    have hD : pcmcu_stream_run f (ys.drop (y + 1))
                        = ((pcmcu_stream_run f (ys.drop (y + 1))).1, r, 0) := by
                      rw [← h2, ← h3st]
                    have htk2 : (FRAME_HEAD :: y :: (ys ++ m)).take (y + 3)
                        = (FRAME_HEAD :: y :: ys).take (y + 3) := by
                      show FRAME_HEAD :: y :: ((ys ++ m).take (y + 1))
                          = FRAME_HEAD :: y :: (ys.take (y + 1))
                      rw [List.take_append_of_le_length (by omega)]
                    have h7' : f ((FRAME_HEAD :: y :: (ys ++ m)).take (y + 3)) = 0 := by
                      rw [htk2]; exact h7
                    rw [hcons, run_frame f (FRAME_HEAD :: y :: (ys ++ m)) (by simp) rfl (by simp)
                        (by show 3 ≤ y; omega) (by show y + 3 ≤ 258; omega)
                        (by show y + 3 ≤ (ys ++ m).length + 1 + 1
                            simp only [List.length_append]; omega) htail' h7',
                      show ((FRAME_HEAD :: y :: (ys ++ m)).getD 1 0) = y from rfl,
                      show (FRAME_HEAD :: y :: (ys ++ m)).drop (y + 3)
                          = (ys ++ m).drop (y + 1) from rfl,
                      List.drop_append_of_le_length (by omega), htk2]
                    rw [ih (ys.drop (y + 1))
                        (by simp only [List.length_cons] at hb;
                            simp only [List.length_drop]; omega)
                        ((pcmcu_stream_run f (ys.drop (y + 1))).1) r hD m]
                    rw [← h1]
                    simp only [List.cons_append]
                  · rw [run_abort f (FRAME_HEAD :: y :: ys) (by simp) rfl (by simp)
                        (by show 3 ≤ y; omega) (by show y + 3 ≤ 258; omega)
                        (by show y + 3 ≤ ys.length + 1 + 1; omega) htail h7] at hrun
                    simp only [Prod.mk.injEq] at hrun
                    exact absurd hrun.2.2 h7
      · rw [run_scan f x xs hx] at hrun
        have hconsm : (x :: xs) ++ m = x :: (xs ++ m) := rfl
        rw [hconsm, run_scan f x (xs ++ m) hx, List.dropWhile_append]
        by_cases hd : (xs.dropWhile (fun b => b != FRAME_HEAD)).isEmpty = true
        · rw [if_pos hd]
          rw [List.isEmpty_iff.mp hd, run_nil] at hrun
          simp only [Prod.mk.injEq] at hrun
          obtain ⟨h1, h2, -⟩ := hrun
          subst h1; subst h2
          rw [run_dropWhile]
          simp only [List.nil_append]
        · rw [if_neg hd]
          have hsub := (List.dropWhile_sublist (l := xs)
            (p := fun b => b != FRAME_HEAD)).length_le
          exact ih (xs.dropWhile (fun b => b != FRAME_HEAD))
            (by simp only [List.length_cons] at hb; omega) fs r hrun m

/-- Bytes before the next head marker are skipped without emissions. -/
theorem run_skip_garbage (f : List Nat → Int) (g m : List Nat)
    (hg : ∀ b ∈ g, b ≠ FRAME_HEAD) :
    pcmcu_stream_run f (g ++ m) = pcmcu_stream_run f m := by
  induction g with
  | nil => rw [List.nil_append]
  | cons a g' ihg =>
    have ha : a ≠ FRAME_HEAD := hg a (by simp)
    rw [List.cons_append, run_scan f a (g' ++ m) ha, run_dropWhile]
    exact ihg (fun b hb => hg b (by simp [hb]))

/-- A structurally complete frame at the front of the buffer is emitted whole
and the loop continues on the remaining bytes. -/
theorem run_emit (f : List Nat → Int) (hf : ∀ fr, f fr = 0) (v s c : Nat) (p : List Nat)
    (hp : p.length ≤ 252) (m : List Nat) :
    pcmcu_stream_run f
        ((FRAME_HEAD :: (3 + p.length) :: v :: s :: c :: (p ++ [FRAME_TAIL])) ++ m)
      = ((FRAME_HEAD :: (3 + p.length) :: v :: s :: c :: (p ++ [FRAME_TAIL]))
            :: (pcmcu_stream_run f m).1,
         (pcmcu_stream_run f m).2.1, (pcmcu_stream_run f m).2.2) := by
  have hFlen : (FRAME_HEAD :: (3 + p.length) :: v :: s :: c :: (p ++ [FRAME_TAIL])).length
      = p.length + 6 := by simp
  have hg1 : ((FRAME_HEAD :: (3 + p.length) :: v :: s :: c :: (p ++ [FRAME_TAIL])) ++ m).getD 1 0
      = 3 + p.length := by
    rw [List.getD_append _ _ _ _ (by rw [hFlen]; omega)]
    rfl
  have hhead : ((FRAME_HEAD :: (3 + p.length) :: v :: s :: c :: (p ++ [FRAME_TAIL])) ++ m).getD 0 0
      = FRAME_HEAD := by
    rw [List.getD_append _ _ _ _ (by rw [hFlen]; omega)]
    rfl
  have htail : ((FRAME_HEAD :: (3 + p.length) :: v :: s :: c :: (p ++ [FRAME_TAIL])) ++ m).getD
      (((FRAME_HEAD :: (3 + p.length) :: v :: s :: c :: (p ++ [FRAME_TAIL])) ++ m).getD 1 0
        + 3 - 1) 0 = FRAME_TAIL := by
    rw [hg1, show (3 : Nat) + p.length + 3 - 1 = p.length + 5 by omega,
      List.getD_append _ _ _ _ (by rw [hFlen]; omega),
      show FRAME_HEAD :: (3 + p.length) :: v :: s :: c :: (p ++ [FRAME_TAIL])
          = ([FRAME_HEAD, 3 + p.length, v, s, c] ++ p) ++ [FRAME_TAIL] by simp,
      List.getD_append_right _ _ _ _ (by simp)]
    simp
  have hlen2 : 2 ≤ ((FRAME_HEAD :: (3 + p.length) :: v :: s :: c :: (p ++ [FRAME_TAIL])) ++ m).length := by
    simp only [List.length_append]
    rw [hFlen]
    omega
  have hfit : ((FRAME_HEAD :: (3 + p.length) :: v :: s :: c :: (p ++ [FRAME_TAIL])) ++ m).getD 1 0 + 3
      ≤ ((FRAME_HEAD :: (3 + p.length) :: v :: s :: c :: (p ++ [FRAME_TAIL])) ++ m).length := by
    rw [hg1]
    simp only [List.length_append]
    rw [hFlen]
    omega
  rw [run_frame f ((FRAME_HEAD :: (3 + p.length) :: v :: s :: c :: (p ++ [FRAME_TAIL])) ++ m)
      (by simp) hhead hlen2 (by rw [hg1]; omega) (by rw [hg1]; omega) hfit htail (hf _),
    hg1, show (3 : Nat) + p.length + 3
        = (FRAME_HEAD :: (3 + p.length) :: v :: s :: c :: (p ++ [FRAME_TAIL])).length
      by rw [hFlen]; omega,
    List.take_left, List.drop_left]

/-- Feeding chunks one at a time is the same as running the loop on their
concatenation, as long as everything fits in the bounded buffer and the
visitor does not abort. -/
theorem feed_many_eq_run (f : List Nat → Int) (hf : ∀ fr, f fr = 0) :
    ∀ (chunks : List (List Nat)) (buf : List Nat),
      pcmcu_stream_run f buf = ([], buf, 0) →
      buf.length + chunks.flatten.length ≤ PCMCU_STREAM_MAX_BUF →
      pcmcu_stream_feed_many f buf chunks
        = ((pcmcu_stream_run f (buf ++ chunks.flatten)).1,
           (pcmcu_stream_run f (buf ++ chunks.flatten)).2.1,
           (pcmcu_stream_run f (buf ++ chunks.flatten)).2.2) := by
  intro chunks
  induction chunks with
  | nil =>
    intro buf hstuck hlen
    simp only [pcmcu_stream_feed_many, List.flatten_nil, List.append_nil, hstuck]
  | cons c cs ihc =>
    intro buf hstuck hlen
    have hjoin : (c :: cs).flatten = c ++ cs.flatten := by simp
    rw [hjoin] at hlen
    simp only [List.length_append] at hlen
    have hingest : pcmcu_stream_ingest buf c = buf ++ c := by
      unfold pcmcu_stream_ingest
      by_cases hc : PCMCU_STREAM_MAX_BUF ≤ c.length
      · have hbuf0 : buf = [] := List.length_eq_zero.mp (by omega)
        subst hbuf0
        rw [if_pos hc, show c.length - PCMCU_STREAM_MAX_BUF = 0 by omega,
          List.drop_zero, List.nil_append]
      · rw [if_neg hc, if_neg (by omega)]
    have hst1 : (pcmcu_stream_run f (buf ++ c)).2.2 = 0 :=
      (run_props f hf (buf ++ c).length (buf ++ c) (le_refl _)).2
    have hr1len : (pcmcu_stream_run f (buf ++ c)).2.1.length ≤ (buf ++ c).length :=
      (run_props f hf (buf ++ c).length (buf ++ c) (le_refl _)).1
    have hrun1 : pcmcu_stream_run f (buf ++ c)
        = ((pcmcu_stream_run f (buf ++ c)).1, (pcmcu_stream_run f (buf ++ c)).2.1, 0) := by
      rw [← hst1]
    have happ := run_append f (buf ++ c).length (buf ++ c) (le_refl _)
      (pcmcu_stream_run f (buf ++ c)).1 (pcmcu_stream_run f (buf ++ c)).2.1 hrun1 []
    rw [List.append_nil, List.append_nil] at happ
    have hcomp := hrun1.symm.trans happ
    simp only [Prod.mk.injEq] at hcomp
    obtain ⟨hA, hr, hs⟩ := hcomp
    have hfs1 : (pcmcu_stream_run f ((pcmcu_stream_run f (buf ++ c)).2.1)).1 = [] := by
      have := congrArg List.length hA
      simp only [List.length_append] at this
      exact List.length_eq_zero.mp (by omega)
    have hstuck1 : pcmcu_stream_run f ((pcmcu_stream_run f (buf ++ c)).2.1)
        = ([], (pcmcu_stream_run f (buf ++ c)).2.1, 0) := by
      calc pcmcu_stream_run f ((pcmcu_stream_run f (buf ++ c)).2.1)
          = ((pcmcu_stream_run f ((pcmcu_stream_run f (buf ++ c)).2.1)).1,
             (pcmcu_stream_run f ((pcmcu_stream_run f (buf ++ c)).2.1)).2.1,
             (pcmcu_stream_run f ((pcmcu_stream_run f (buf ++ c)).2.1)).2.2) := rfl
        _ = ([], (pcmcu_stream_run f (buf ++ c)).2.1, 0) := by rw [hfs1, ← hr, ← hs]
    simp only [List.length_append] at hr1len
    have IH := ihc (pcmcu_stream_run f (buf ++ c)).2.1 hstuck1 (by omega)
    have hfeed : pcmcu_stream_feed f buf c = pcmcu_stream_run f (buf ++ c) := by
      unfold pcmcu_stream_feed
      rw [hingest]
    simp only [pcmcu_stream_feed_many, hfeed, hst1]
    rw [if_neg (by omega)]
    rw [IH]
    have happ2 := run_append f (buf ++ c).length (buf ++ c) (le_refl _)
      (pcmcu_stream_run f (buf ++ c)).1 (pcmcu_stream_run f (buf ++ c)).2.1 hrun1 cs.flatten
    rw [hjoin, show buf ++ (c ++ cs.flatten) = (buf ++ c) ++ cs.flatten by rw [List.append_assoc],
      happ2]

/-- C8: the reassembler discards exactly 1 byte (never the whole candidate)
on a tail-marker mismatch, and consequently a stream of head-marker-free
garbage, a structurally valid frame, more garbage, and a second frame — fed
in arbitrary chunks of any size, with a non-aborting visitor and within the
buffer bound — yields exactly two visitor invocations, in order, each
byte-identical to the corresponding frame, leaving an empty buffer. -/
theorem stream_resync (f : List Nat → Int) (g1 g2 p1 p2 : List Nat)
    (v1 s1 c1 v2 s2 c2 : Nat)
    (hg1 : ∀ b ∈ g1, b ≠ FRAME_HEAD) (hg2 : ∀ b ∈ g2, b ≠ FRAME_HEAD)
    (hp1 : p1.length ≤ 252) (hp2 : p2.length ≤ 252) (hf : ∀ fr, f fr = 0)
    (chunks : List (List Nat))
    (hchunks : chunks.flatten
      = g1 ++ ((FRAME_HEAD :: (3 + p1.length) :: v1 :: s1 :: c1 :: (p1 ++ [FRAME_TAIL]))
          ++ (g2 ++ (FRAME_HEAD :: (3 + p2.length) :: v2 :: s2 :: c2 :: (p2 ++ [FRAME_TAIL])))))
    (hlen : chunks.flatten.length ≤ PCMCU_STREAM_MAX_BUF) :
    (∀ b : List Nat, b ≠ [] → b.getD 0 0 = FRAME_HEAD → 2 ≤ b.length →
      3 ≤ b.getD 1 0 → b.getD 1 0 + 3 ≤ 258 → b.getD 1 0 + 3 ≤ b.length →
      b.getD (b.getD 1 0 + 3 - 1) 0 ≠ FRAME_TAIL →
      pcmcu_stream_run f b = pcmcu_stream_run f (b.drop 1)) ∧
    pcmcu_stream_feed_many f [] chunks
      = ([FRAME_HEAD :: (3 + p1.length) :: v1 :: s1 :: c1 :: (p1 ++ [FRAME_TAIL]),
          FRAME_HEAD :: (3 + p2.length) :: v2 :: s2 :: c2 :: (p2 ++ [FRAME_TAIL])], [], 0) := by
  constructor
  · intro b hne hhead hlen2 hL hrange hfit htail
    exact run_badtail f b hne hhead hlen2 hL hrange hfit htail
  · have hrest : pcmcu_stream_run f
        (g2 ++ (FRAME_HEAD :: (3 + p2.length) :: v2 :: s2 :: c2 :: (p2 ++ [FRAME_TAIL])))
        = ([FRAME_HEAD :: (3 + p2.length) :: v2 :: s2 :: c2 :: (p2 ++ [FRAME_TAIL])], [], 0) := by
      rw [run_skip_garbage f g2 _ hg2]
      have hF2 := run_emit f hf v2 s2 c2 p2 hp2 []
      rw [List.append_nil, run_nil] at hF2
      rw [hF2]
    have hwhole : pcmcu_stream_run f (chunks.flatten) = ([FRAME_HEAD :: (3 + p1.length)
          :: v1 :: s1 :: c1 :: (p1 ++ [FRAME_TAIL]),
        FRAME_HEAD :: (3 + p2.length) :: v2 :: s2 :: c2 :: (p2 ++ [FRAME_TAIL])], [], 0) := by
      rw [hchunks, run_skip_garbage f g1 _ hg1,
        run_emit f hf v1 s1 c1 p1 hp1
          (g2 ++ (FRAME_HEAD :: (3 + p2.length) :: v2 :: s2 :: c2 :: (p2 ++ [FRAME_TAIL]))),
        hrest]
    rw [feed_many_eq_run f hf chunks [] (run_nil f) (by simpa using hlen),
      List.nil_append, hwhole]

/-- C8 witness: garbage byte, empty-payload frame, garbage byte, second frame,
fed one byte at a time, emits exactly the two frames. -/
theorem stream_resync_witness :
    pcmcu_stream_feed_many (fun _ => 0) []
        [[1], [0xAA], [3], [0], [0], [3], [0x55], [2], [0xAA], [3], [7], [1], [11], [0x55]]
      = ([[0xAA, 3, 0, 0, 3, 0x55], [0xAA, 3, 7, 1, 11, 0x55]], [], 0) := by
  have h := (stream_resync (fun _ => 0) [1] [2] [] [] 0 0 3 7 1 11
    (by decide) (by decide) (by decide) (by decide) (fun _ => rfl)
    [[1], [0xAA], [3], [0], [0], [3], [0x55], [2], [0xAA], [3], [7], [1], [11], [0x55]]
    (by decide) (by decide)).2
  exact h

/-- The structural validation pass only ever returns `DATA_OK` or `DATA_EFMT`. -/
theorem validate_go_cases (tlv : List Nat) :
    ∀ (fuel i : Nat), tlv.length - i ≤ fuel →
      validate_go tlv i = DATA_OK ∨ validate_go tlv i = DATA_EFMT := by
  intro fuel
  induction fuel with
  | zero =>
    intro i hi
    rw [validate_go, dif_neg (by omega)]
    exact Or.inl rfl
  | succ n ih =>
    intro i hi
    rw [validate_go]
    by_cases h : i < tlv.length
    · rw [dif_pos h]
      by_cases h2 : tlv.length < i + 2
      · rw [if_pos h2]; exact Or.inr rfl
      · rw [if_neg h2]
        by_cases h3 : tlv.length < i + 2 + tlv.getD (i + 1) 0
        · rw [if_pos h3]; exact Or.inr rfl
        · rw [if_neg h3]
          exact ih (i + 2 + tlv.getD (i + 1) 0) (by omega)
    · rw [dif_neg h]; exact Or.inl rfl

/-- C4: when the TLV range of a DATA buffer fails structural validation,
`data_decode` returns `MalformedTlv` (`DATA_EFMT`) and the visitor has not
been invoked even once. -/
theorem decode_malformed_no_callback (data : List Nat) (f : Nat → List Nat → Nat → Int)
    (h2 : 2 ≤ data.length) (hbad : data_validate_tlvs (data.drop 2) ≠ DATA_OK) :
    data_decode data f = (DATA_EFMT, some (data.getD 0 0), some (data.getD 1 0), []) := by
  have hEFMT : data_validate_tlvs (data.drop 2) = DATA_EFMT := by
    rcases validate_go_cases (data.drop 2) (data.drop 2).length 0 (by omega) with h | h
    · exact absurd h hbad
    · exact h
  simp only [data_decode, hEFMT]
  rw [if_neg (by omega), if_pos (by decide)]

/-- C4 witness: a TLV header declaring 5 value bytes with none present is
structurally invalid, and decoding it visits nothing. -/
theorem decode_malformed_no_callback_witness :
    data_decode [1, 0xAF, 0x10, 5] (fun _ _ _ => 0) = (DATA_EFMT, some 1, some 0xAF, []) :=
  decode_malformed_no_callback [1, 0xAF, 0x10, 5] (fun _ _ _ => 0) (by decide)
    (by simp [data_validate_tlvs, validate_go, DATA_EFMT, DATA_OK])

/-- Structural validation of a single TLV record with a consistent length. -/
theorem validate_single (t l : Nat) (val : List Nat) (hval : val.length = l) :
    data_validate_tlvs (t :: l :: val) = DATA_OK := by
  have h1 : (t :: l :: val).getD (0 + 1) 0 = l := rfl
  rw [data_validate_tlvs, validate_go,
    dif_pos (by simp only [List.length_cons]; omega), h1,
    if_neg (by simp only [List.length_cons]; omega),
    if_neg (by simp only [List.length_cons]; omega),
    validate_go, dif_neg (by simp only [List.length_cons]; omega)]

/-- The decode walk on a single TLV record of consistent length and accepted
width visits it exactly once. -/
theorem decode_go_single (t l : Nat) (val : List Nat) (f : Nat → List Nat → Nat → Int)
    (hval : val.length = l)
    (hsz : ¬(VAR_SIZE_TABLE t ≠ 0 ∧ l ≠ VAR_SIZE_TABLE t)) (hf : f t val l = 0) :
    decode_go (t :: l :: val) f 0 = (DATA_OK, [(t, val, l)]) := by
  have h0 : (t :: l :: val).getD 0 0 = t := rfl
  have h1 : (t :: l :: val).getD (0 + 1) 0 = l := rfl
  have h2 : ((t :: l :: val).drop (0 + 2)).take l = val := by
    show val.take l = val
    rw [← hval, List.take_length]
  have hstop : decode_go (t :: l :: val) f (0 + 2 + l) = (DATA_OK, []) := by
    rw [decode_go, dif_neg (by simp only [List.length_cons]; omega)]
  rw [decode_go, dif_pos (by simp only [List.length_cons]; omega), h0, h1, h2,
    if_neg hsz, if_neg (not_ne_iff.mpr hf), hstop]

/-- C5: for a tag whose registry width `w` is nonzero, `data_put_var` with any
other length fails `SizeMismatch` leaving the buffer untouched; with length
`w` it succeeds, and decoding a DATA buffer holding the written TLV record
delivers back exactly the original tag, length and value bytes. -/
theorem put_var_width_enforcement (t w : Nat) (hw : VAR_SIZE_TABLE t = w) (hw0 : w ≠ 0) :
    (∀ (buf : List Nat) (cap off : Nat) (v : Option (List Nat)) (l : Nat), l ≠ w →
      data_put_var buf cap off t v l = (DATA_ESIZE, buf, none)) ∧
    (∀ (buf : List Nat) (cap : Nat) (val : List Nat) (msg ver : Nat)
      (f : Nat → List Nat → Nat → Int),
      val.length = w → 2 + w ≤ cap → cap ≤ buf.length → f t val w = 0 →
      ∃ buf' : List Nat,
        data_put_var buf cap 0 t (some val) w = (DATA_OK, buf', some (2 + w)) ∧
        buf'.take (2 + w) = t :: w :: val ∧
        data_decode (msg :: ver :: buf'.take (2 + w)) f
          = (DATA_OK, some msg, some ver, [(t, val, w)])) := by
  constructor
  · intro buf cap off v l hl
    unfold data_put_var
    rw [if_pos (by rw [hw]; exact ⟨hw0, hl⟩)]
  · intro buf cap val msg ver f hval hcap hbuf hf
    have htkv : val.take w = val := by rw [← hval, List.take_length]
    have htlv : data_put_tlv buf cap 0 t (some val) w
        = (t :: w :: (val ++ buf.drop (2 + w)), some (0 + 2 + w)) := by
      unfold data_put_tlv
      rw [if_neg (by omega), if_pos (by omega)]
      show (write_bytes (write_bytes buf 0 [t, w]) (0 + 2) (val.take w), some (0 + 2 + w))
          = (t :: w :: (val ++ buf.drop (2 + w)), some (0 + 2 + w))
      rw [htkv]
      have hwb1 : write_bytes buf 0 [t, w] = t :: w :: buf.drop 2 := by
        unfold write_bytes
        simp
      rw [hwb1]
      unfold write_bytes
      have h1 : (t :: w :: buf.drop 2).take (0 + 2) = [t, w] := rfl
      have h2 : (t :: w :: buf.drop 2).drop (0 + 2 + val.length) = buf.drop (2 + w) := by
        rw [show 0 + 2 + val.length = (val.length + 1) + 1 by omega]
        rw [List.drop_succ_cons, List.drop_succ_cons, List.drop_drop, hval]
      rw [h1, h2]
      simp
    have hvar : data_put_var buf cap 0 t (some val) w
        = (DATA_OK, t :: w :: (val ++ buf.drop (2 + w)), some (2 + w)) := by
      unfold data_put_var
      rw [if_neg (by rw [hw]; simp), htlv]
    refine ⟨t :: w :: (val ++ buf.drop (2 + w)), hvar, ?_, ?_⟩
    · have : (t :: w :: (val ++ buf.drop (2 + w))).take (2 + w)
          = t :: w :: (val ++ buf.drop (2 + w)).take w := by simp [List.take_cons]
      rw [this, List.take_left' hval]
    · have htake : (t :: w :: (val ++ buf.drop (2 + w))).take (2 + w) = t :: w :: val := by
        have : (t :: w :: (val ++ buf.drop (2 + w))).take (2 + w)
            = t :: w :: (val ++ buf.drop (2 + w)).take w := by simp [List.take_cons]
        rw [this, List.take_left' hval]
      rw [htake]
      unfold data_decode
      rw [if_neg (by simp)]
      have hdrop : (msg :: ver :: t :: w :: val).drop 2 = t :: w :: val := rfl
      rw [hdrop, validate_single t w val hval,
        if_neg (by decide),
        decode_go_single t w val f hval (by rw [hw]; simp) hf]
      rfl

/-- C5 witness: tag `0x5D` has registry width 4; length 3 fails SizeMismatch,
and a 4-byte value round-trips through encode and decode. -/
theorem put_var_width_enforcement_witness :
    data_put_var [0, 0, 0, 0, 0, 0, 0, 0] 8 0 0x5D (some [9, 9, 9]) 3
      = (DATA_ESIZE, [0, 0, 0, 0, 0, 0, 0, 0], none) ∧
    ∃ buf' : List Nat,
      data_put_var [0, 0, 0, 0, 0, 0, 0, 0] 8 0 0x5D (some [1, 2, 3, 4]) 4
        = (DATA_OK, buf', some 6) ∧
      buf'.take 6 = 0x5D :: 4 :: [1, 2, 3, 4] ∧
      data_decode (2 :: 0xAF :: buf'.take 6) (fun _ _ _ => 0)
        = (DATA_OK, some 2, some 0xAF, [(0x5D, [1, 2, 3, 4], 4)]) := by
  have h := put_var_width_enforcement 0x5D 4 (by decide) (by decide)
  exact ⟨h.1 [0, 0, 0, 0, 0, 0, 0, 0] 8 0 (some [9, 9, 9]) 3 (by decide),
    h.2 [0, 0, 0, 0, 0, 0, 0, 0] 8 [1, 2, 3, 4] 2 0xAF (fun _ _ _ => 0)
      (by decide) (by decide) (by decide) rfl⟩

/-- C9: `data_put_tlv` with a NULL value pointer and a nonzero length does not
fail: it writes the tag and length header only, copies no value bytes (the
declared value region keeps the old buffer contents), and returns offset
`w + 2`, which lies strictly inside the declared value region `[w+2, w+2+l)`. -/
theorem put_tlv_null_value (buf : List Nat) (cap w t l : Nat)
    (hl : l ≠ 0) (hcap : w + 2 + l ≤ cap) (hbuf : cap ≤ buf.length) :
    data_put_tlv buf cap w t none l
      = (buf.take w ++ [t, l] ++ buf.drop (w + 2), some (w + 2)) ∧
    (∀ k, k < l → (buf.take w ++ [t, l] ++ buf.drop (w + 2)).getD (w + 2 + k) 0
      = buf.getD (w + 2 + k) 0) ∧
    w + 2 < w + 2 + l := by
  refine ⟨?_, ?_, by omega⟩
  · unfold data_put_tlv
    rw [if_neg (by omega), if_pos hl]
    unfold write_bytes
    simp
  · intro k hk
    have hpre : (buf.take w ++ [t, l]).length = w + 2 := by
      simp only [List.length_append, List.length_take, List.length_cons, List.length_nil]
      omega
    have hsplit : buf.take w ++ [t, l] ++ buf.drop (w + 2)
        = (buf.take w ++ [t, l]) ++ buf.drop (w + 2) := by
      simp [List.append_assoc]
    rw [hsplit, List.getD_append_right _ _ _ _ (by omega), hpre]
    have hidx : w + 2 + k - (w + 2) = k := by omega
    rw [hidx, List.getD_eq_getElem?_getD, List.getD_eq_getElem?_getD, List.getElem?_drop]

/-- C9 witness: at `buf = [5,5,5,5,5,5], cap = 6, w = 0, t = 7, l = 2`. -/
theorem put_tlv_null_value_witness :
    data_put_tlv [5, 5, 5, 5, 5, 5] 6 0 7 none 2
      = ([5, 5, 5, 5, 5, 5].take 0 ++ [7, 2] ++ [5, 5, 5, 5, 5, 5].drop 2, some 2) ∧
    (∀ k, k < 2 → (([5, 5, 5, 5, 5, 5].take 0 ++ [7, 2] ++ [5, 5, 5, 5, 5, 5].drop 2)).getD
        (0 + 2 + k) 0 = [5, 5, 5, 5, 5, 5].getD (0 + 2 + k) 0) ∧
    0 + 2 < 0 + 2 + 2 := by
  have h := put_tlv_null_value [5, 5, 5, 5, 5, 5] 6 0 7 2 (by decide) (by decide) (by decide)
  exact ⟨h.1, fun k hk => h.2.1 k hk, h.2.2⟩

/-- C10 witness: at `seq=1, ver=0, n=3`. -/
theorem build_null_data_witness :
    pcmcu_build_frame 1 none 3 0 16 =
      .ok ([FRAME_HEAD, 3 + 3, 0, 1, (3 + 3 + 0 + 1) % 256, FRAME_TAIL], 6) ∧
    (pcmcu_parse_frame_data [FRAME_HEAD, 3 + 3, 0, 1, (3 + 3 + 0 + 1) % 256, FRAME_TAIL]
        false 0 true true true).1 = PCMCU_ELEN_MISMATCH ∧
    PCMCU_ELEN_MISMATCH ≠ PCMCU_OK :=
  build_null_data 1 0 3 (by decide) (by decide) 16 (by decide)
